import Mathlib

/-!
# kubectl-copy_secret: the sourcing and placement pipeline

A shallow embedding of `pkg/cmd/copy.go`.  The Kubernetes client is an external
collaborator: it is a value of type `Clientset σ` whose three operations act on
an arbitrary store state `σ`.  Every call made on the client and every
`fmt.Fprintf(o.Out, ...)` is appended, in program order, to one event trace, so
that the order of store calls and diagnostics can be stated.
-/

set_option autoImplicit false

namespace CopySecret

/-! ## Data model (the fields of the Kubernetes API types the program touches) -/

/-- Go `error` values returned by the store client. -/
inductive Err where
  | notFound (name : String)
  | alreadyExists (name : String)
  | other (msg : String)
deriving DecidableEq, Repr

/-- The `metav1.TypeMeta` kind/version discriminator. -/
structure TypeMeta where
  Kind : String := ""
  APIVersion : String := ""
deriving DecidableEq, Repr

/-- One `metav1.OwnerReference`. -/
structure OwnerReference where
  APIVersion : String := ""
  Kind : String := ""
  Name : String := ""
  UID : String := ""
deriving DecidableEq, Repr

/-- The `metav1.ObjectMeta` record; every field defaults to its Go zero value, so
the structure instance `{ Name := n, Namespace := d }` is the Go composite literal
`v1.ObjectMeta{Name: n, Namespace: d}`.  Maps and slices are lists (`[]` is nil),
pointers are options, timestamps are options of seconds. -/
structure ObjectMeta where
  Name : String := ""
  GenerateName : String := ""
  Namespace : String := ""
  SelfLink : String := ""
  UID : String := ""
  ResourceVersion : String := ""
  Generation : Int := 0
  CreationTimestamp : Option Int := none
  DeletionTimestamp : Option Int := none
  DeletionGracePeriodSeconds : Option Int := none
  Labels : List (String × String) := []
  Annotations : List (String × String) := []
  OwnerReferences : List OwnerReference := []
  Finalizers : List String := []
  ManagedFields : List String := []
deriving DecidableEq, Repr

/-- The `apiv1.Secret` object (`Type_` is the Go field `Type`). -/
structure Secret where
  TypeMeta : TypeMeta := {}
  ObjectMeta : ObjectMeta := {}
  Immutable : Option Bool := none
  Data : List (String × List Nat) := []
  StringData : List (String × String) := []
  Type_ : String := ""
deriving DecidableEq, Repr

/-- One `fmt.Fprintf(o.Out, format, args...)`: a constructor per format string of
`copy.go`, carrying the arguments. -/
inductive Output where
  /-- Line 86: `"getting secrets %s\n"`. -/
  | gettingSecrets (names : List String)
  /-- Line 96: `"%q could not be found in the origin ns so they will be skipped\n"`. -/
  | skipped (errList : List String)
  /-- Line 100: `"getting all secrets in the %q ns\n"`. -/
  | gettingAll (ns : String)
  /-- Line 104: `"error getting all secrets from %q: %s"`. -/
  | errorGettingAll (ns : String) (err : Err)
  /-- Line 111: `"%q secret found\n"`. -/
  | secretFound (name : String)
  /-- Line 132: `"error putting secret %q in %q ns: failed with error %s\n"`. -/
  | errorPutting (name : String) (ns : String) (err : Err)
  /-- Line 144: `"error listing all secrets: %s\n"`. -/
  | errorListing (err : Err)
  /-- Line 177: `"error getting secret %q from ns %q: %s"`. -/
  | errorGetting (name : String) (ns : String) (err : Err)
  /-- Line 196: `"creating secret %q in %q ns\n"`. -/
  | creating (name : String) (ns : String)
  /-- Line 202: `"error creating secret %q in %q ns"`. -/
  | errorCreating (name : String) (ns : String)
deriving DecidableEq, Repr

/-- An observable step of an invocation: a call on the store client or a write to
`o.Out`. -/
inductive Event where
  | get (ns : String) (name : String)
  | list (ns : String)
  | create (ns : String) (secret : Secret)
  | write (line : Output)
deriving DecidableEq, Repr

/-- The world outside the options object: the store behind the client and the
trace of events so far. -/
structure World (σ : Type) where
  store : σ
  trace : List Event

/-- The store client (`*kubernetes.Clientset`, restricted to secrets): each
operation takes the namespace, its argument and the store state, and returns its
result together with the store state after the call. -/
structure Clientset (σ : Type) where
  get : String → String → σ → Except Err Secret × σ
  list : String → σ → Except Err (List Secret) × σ
  create : String → Secret → σ → Except Err Secret × σ

/-- The namespaced view `o.client.CoreV1().Secrets(ns)`. -/
structure SecretInterface (σ : Type) where
  client : Clientset σ
  ns : String

/-- `client.CoreV1().Secrets(ns)`. -/
def Clientset.Secrets {σ : Type} (c : Clientset σ) (ns : String) : SecretInterface σ :=
  ⟨c, ns⟩

/-- `i.Get(ctx, name, v1.GetOptions{})`. -/
def SecretInterface.Get {σ : Type} (i : SecretInterface σ) (name : String) (w : World σ) :
    Except Err Secret × World σ :=
  let r := i.client.get i.ns name w.store
  (r.1, ⟨r.2, w.trace ++ [Event.get i.ns name]⟩)

/-- `i.List(ctx, v1.ListOptions{})`, returning `secretList.Items`. -/
def SecretInterface.List {σ : Type} (i : SecretInterface σ) (w : World σ) :
    Except Err (List Secret) × World σ :=
  let r := i.client.list i.ns w.store
  (r.1, ⟨r.2, w.trace ++ [Event.list i.ns]⟩)

/-- `i.Create(ctx, secret, v1.CreateOptions{})`. -/
def SecretInterface.Create {σ : Type} (i : SecretInterface σ) (secret : Secret) (w : World σ) :
    Except Err Secret × World σ :=
  let r := i.client.create i.ns secret w.store
  (r.1, ⟨r.2, w.trace ++ [Event.create i.ns secret]⟩)

/-- `fmt.Fprintf(o.Out, ...)`. -/
def Fprintf {σ : Type} (line : Output) (w : World σ) : World σ :=
  ⟨w.store, w.trace ++ [Event.write line]⟩

/-- The part of `*cobra.Command` the program reads: the pair returned by
`cmd.Flags().GetBool("all")`. -/
structure Command where
  GetBoolAll : Bool × Option Err

/-- The `CopySecretOptions` struct (without `configFlags`; `IOStreams.Out` is the
trace of the world). -/
structure CopySecretOptions (σ : Type) where
  secrets : List String
  allSecrets : Bool
  originNS : String
  destinationNS : String
  oSecrets : List Secret
  verbose : Bool
  client : Clientset σ

/-- `NewCopySecretOptions`: every field but the client has its zero value. -/
def NewCopySecretOptions {σ : Type} (client : Clientset σ) : CopySecretOptions σ :=
  { secrets := [], allSecrets := false, originNS := "", destinationNS := "",
    oSecrets := [], verbose := false, client := client }

/-! ## The functions of `copy.go` -/

/-- `getSingleSecret` (lines 185-191). -/
def getSingleSecret {σ : Type} (i : SecretInterface σ) (name : String) (w : World σ) :
    Except Err Secret × World σ :=
  match i.Get name w with
  | (Except.error err, w1) => (Except.error err, w1)
  | (Except.ok s, w1) => (Except.ok s, w1)

/-- `AddSingleSecret` (lines 172-183). -/
def AddSingleSecret {σ : Type} (o : CopySecretOptions σ) (ns : String) (name : String)
    (w : World σ) : Option Err × CopySecretOptions σ × World σ :=
  let secretInterface := o.client.Secrets ns
  match getSingleSecret secretInterface name w with
  | (Except.error err, w1) =>
    let w2 := if o.verbose then Fprintf (Output.errorGetting name ns err) w1 else w1
    (some err, o, w2)
  | (Except.ok s, w1) =>
    (none, { o with oSecrets := o.oSecrets ++ [s] }, w1)

/-- `allSecretsFrom` (lines 151-169). -/
def allSecretsFrom {σ : Type} (i : SecretInterface σ) (w : World σ) :
    Except Err (List Secret) × World σ :=
  match i.List w with
  | (Except.error err, w1) => (Except.error err, w1)
  | (Except.ok items, w1) =>
    (Except.ok (items.foldl (fun secrets secret =>
      secrets ++ [{ TypeMeta := secret.TypeMeta, ObjectMeta := secret.ObjectMeta,
                    Immutable := secret.Immutable, Data := secret.Data,
                    StringData := secret.StringData, Type_ := secret.Type_ }]) []), w1)

/-- `AllSecretsFrom` (lines 138-149); on an error `o.oSecrets` has been assigned nil. -/
def AllSecretsFrom {σ : Type} (o : CopySecretOptions σ) (ns : String) (w : World σ) :
    Option Err × CopySecretOptions σ × World σ :=
  let secretInterface := o.client.Secrets ns
  match allSecretsFrom secretInterface w with
  | (Except.error err, w1) =>
    let w2 := if o.verbose then Fprintf (Output.errorListing err) w1 else w1
    (some err, { o with oSecrets := [] }, w2)
  | (Except.ok l, w1) => (none, { o with oSecrets := l }, w1)

/-- `putSecret` (lines 209-215). -/
def putSecret {σ : Type} (i : SecretInterface σ) (secret : Secret) (w : World σ) :
    Option Err × World σ :=
  match i.Create secret w with
  | (Except.error err, w1) => (some err, w1)
  | (Except.ok _, w1) => (none, w1)

/-- `PutSecret` (lines 194-207). -/
def PutSecret {σ : Type} (o : CopySecretOptions σ) (dest : String) (secret : Secret)
    (w : World σ) : Option Err × World σ :=
  let w1 := if o.verbose then Fprintf (Output.creating secret.ObjectMeta.Name dest) w else w
  let secretInterface := o.client.Secrets dest
  match putSecret secretInterface secret w1 with
  | (some err, w2) =>
    let w3 := if o.verbose then
      Fprintf (Output.errorCreating secret.ObjectMeta.Name dest) w2 else w2
    (some err, w3)
  | (none, w2) => (none, w2)

/-- The body of the `for _, s := range o.secrets` loop of `SourceSecrets`
(lines 90-93); the loop state is the options, `errList` and the world. -/
def sourceStep {σ : Type} (acc : CopySecretOptions σ × List String × World σ) (s : String) :
    CopySecretOptions σ × List String × World σ :=
  match AddSingleSecret acc.1 acc.1.originNS s acc.2.2 with
  | (some _, o1, w1) => (o1, acc.2.1 ++ [s], w1)
  | (none, o1, w1) => (o1, acc.2.1, w1)

/-- `SourceSecrets` (lines 77-115). -/
def SourceSecrets {σ : Type} (o : CopySecretOptions σ) (cmd : Command) (w : World σ) :
    Option Err × CopySecretOptions σ × World σ :=
  let o := { o with allSecrets := cmd.GetBoolAll.1 }
  match cmd.GetBoolAll.2 with
  | some err => (some err, o, w)
  | none =>
    let found (o : CopySecretOptions σ) (w : World σ) : World σ :=
      if o.verbose then
        o.oSecrets.foldl (fun w s => Fprintf (Output.secretFound s.ObjectMeta.Name) w) w
      else w
    if !o.allSecrets then
      let w := if o.verbose then Fprintf (Output.gettingSecrets o.secrets) w else w
      match o.secrets.foldl sourceStep (o, [], w) with
      | (o, errList, w) =>
        let w := if errList.length > 0 then Fprintf (Output.skipped errList) w else w
        (none, o, found o w)
    else
      let w := if o.verbose then Fprintf (Output.gettingAll o.originNS) w else w
      match AllSecretsFrom o o.originNS w with
      | (some err, o, w) =>
        (some err, o, Fprintf (Output.errorGettingAll o.originNS err) w)
      | (none, o, w) => (none, o, found o w)

/-- The body of the `for _, secret := range o.oSecrets` loop of `Run`
(lines 119-133). -/
def runStep {σ : Type} (o : CopySecretOptions σ) (w : World σ) (secret : Secret) : World σ :=
  let s : Secret :=
    { TypeMeta := secret.TypeMeta,
      ObjectMeta := { Name := secret.ObjectMeta.Name, Namespace := o.destinationNS },
      Immutable := secret.Immutable,
      Data := secret.Data,
      StringData := secret.StringData,
      Type_ := secret.Type_ }
  match PutSecret o o.destinationNS s w with
  | (some err, w1) =>
    Fprintf (Output.errorPutting s.ObjectMeta.Name o.destinationNS err) w1
  | (none, w1) => w1

/-- `Run` (lines 117-135). -/
def Run {σ : Type} (o : CopySecretOptions σ) (w : World σ) : World σ :=
  o.oSecrets.foldl (runStep o) w

/-- The `RunE` handler of `NewCmdCopySecret` (lines 54-61). -/
def RunE {σ : Type} (o : CopySecretOptions σ) (cmd : Command) (w : World σ) :
    Option Err × CopySecretOptions σ × World σ :=
  match SourceSecrets o cmd w with
  | (some err, o1, w1) => (some err, o1, w1)
  | (none, o1, w1) => (none, o1, Run o1 w1)

/-! ## Reading the trace -/

/-- The `Create` call recorded by an event, if it is one: namespace and object. -/
def createCall : Event → Option (String × Secret)
  | Event.create ns secret => some (ns, secret)
  | _ => none

/-- The `Create` calls of a trace, in order. -/
def creates (t : List Event) : List (String × Secret) :=
  t.filterMap createCall

/-- The line written by an event, if it is a write to `o.Out`. -/
def writeOf : Event → Option Output
  | Event.write line => some line
  | _ => none

/-- The lines written to `o.Out` in a trace, in order. -/
def writes (t : List Event) : List Output :=
  t.filterMap writeOf

/-- Whether a line is an `"error putting secret ..."` diagnostic of `Run`. -/
def isErrorPutting : Output → Bool
  | Output.errorPutting _ _ _ => true
  | _ => false

/-- Whether a line is the aggregated skip diagnostic of `SourceSecrets` (line 96). -/
def isSkipped : Output → Bool
  | Output.skipped _ => true
  | _ => false

/-- Whether a line is the per-name `"error getting secret ..."` diagnostic of
`AddSingleSecret` (line 177). -/
def isErrorGetting : Output → Bool
  | Output.errorGetting _ _ _ => true
  | _ => false

/-- The events an operation appended to a trace that had `n` events before. -/
def newEvents (n : Nat) (t : List Event) : List Event :=
  t.drop n

/-- The object `Run` builds from a sourced secret (lines 119-129). -/
def placed (dest : String) (secret : Secret) : Secret :=
  { TypeMeta := secret.TypeMeta,
    ObjectMeta := { Name := secret.ObjectMeta.Name, Namespace := dest },
    Immutable := secret.Immutable,
    Data := secret.Data,
    StringData := secret.StringData,
    Type_ := secret.Type_ }

/-- The Go `err` of a call result. -/
def errOf {α : Type} : Except Err α → Option Err
  | Except.error err => some err
  | Except.ok _ => none

/-- The value of a call result, when there is no error. -/
def okOf {α : Type} : Except Err α → Option α
  | Except.error _ => none
  | Except.ok a => some a

/-- The events of one `PutSecret` call whose `Create` returned `r`. -/
def putEvents (verbose : Bool) (dest : String) (s : Secret) (r : Option Err) : List Event :=
  (if verbose then [Event.write (Output.creating s.ObjectMeta.Name dest)] else []) ++
  [Event.create dest s] ++
  (match r with
   | some _ => if verbose then [Event.write (Output.errorCreating s.ObjectMeta.Name dest)] else []
   | none => [])

/-- The events of one iteration of `Run` whose `Create` returned `r`. -/
def stepEvents (verbose : Bool) (dest : String) (s : Secret) (r : Option Err) : List Event :=
  putEvents verbose dest s r ++
  (match r with
   | some err => [Event.write (Output.errorPutting s.ObjectMeta.Name dest err)]
   | none => [])

/-- The events of one `AddSingleSecret` call whose `Get` returned error `r`. -/
def getEvents (verbose : Bool) (ns : String) (name : String) (r : Option Err) : List Event :=
  [Event.get ns name] ++
  (match r with
   | some err => if verbose then [Event.write (Output.errorGetting name ns err)] else []
   | none => [])

/-- The event of a write that happens only under a condition. -/
def optWrite (b : Bool) (line : Output) : List Event :=
  if b then [Event.write line] else []

/-- The events of the `"%q secret found\n"` loop of `SourceSecrets` (lines 109-113). -/
def foundEvents (verbose : Bool) (l : List Secret) : List Event :=
  if verbose then l.map (fun s => Event.write (Output.secretFound s.ObjectMeta.Name)) else []

/-! ## A reference store

The claims that speak of what exists in a namespace are stated against this
store: a namespace maps to the list of its secrets, `Get` looks a name up, `List`
enumerates, and `Create` inserts the object unless the name is taken.  `Faults`
lets `Get` and `List` fail for a reason other than absence (an unreachable
store). -/

/-- The contents of the store: the secrets of each namespace, in enumeration order. -/
abbrev Store := String → List Secret

/-- Errors the lookup channel itself raises: for `Get ns name` and for `List ns`. -/
structure Faults where
  get : String → String → Option Err
  list : String → Option Err

/-- A store whose lookup channel never fails. -/
def noFaults : Faults := ⟨fun _ _ => none, fun _ => none⟩

/-- Whether a secret of that name is in the list. -/
def hasName (l : List Secret) (name : String) : Bool :=
  l.any (fun s => s.ObjectMeta.Name == name)

/-- The secret of that name in the list, if any. -/
def lookup (l : List Secret) (name : String) : Option Secret :=
  l.find? (fun s => s.ObjectMeta.Name == name)

/-- The reference `Get`: a channel fault, else the named secret or `NotFound`. -/
def memGet (f : Faults) (ns : String) (name : String) (st : Store) : Except Err Secret × Store :=
  match f.get ns name with
  | some err => (Except.error err, st)
  | none =>
    match lookup (st ns) name with
    | some s => (Except.ok s, st)
    | none => (Except.error (Err.notFound name), st)

/-- The reference `List`: a channel fault, else the secrets of the namespace. -/
def memList (f : Faults) (ns : String) (st : Store) : Except Err (List Secret) × Store :=
  match f.list ns with
  | some err => (Except.error err, st)
  | none => (Except.ok (st ns), st)

/-- The reference `Create`: insert-if-absent in the named namespace, failing with
`AlreadyExists` exactly when the name is taken there. -/
def memCreate (ns : String) (secret : Secret) (st : Store) : Except Err Secret × Store :=
  if hasName (st ns) secret.ObjectMeta.Name then
    (Except.error (Err.alreadyExists secret.ObjectMeta.Name), st)
  else
    (Except.ok secret, fun n => if n = ns then st n ++ [secret] else st n)

/-- The reference store as a client. -/
def memClient (f : Faults) : Clientset Store :=
  ⟨memGet f, memList f, memCreate⟩

/-- The names of a by-name request whose `Get` on the reference store fails, for
absence or for a channel fault, in request order. -/
def failedNames (f : Faults) (st : Store) (ns : String) (names : List String) : List String :=
  names.filter (fun n => (errOf (memGet f ns n st).1).isSome)

/-- The secrets the `Get` calls of a by-name request return on the reference
store, in request order. -/
def foundSecrets (f : Faults) (st : Store) (ns : String) (names : List String) : List Secret :=
  names.filterMap (fun n => okOf (memGet f ns n st).1)

/-- The options object after flag parsing: `NewCopySecretOptions` with the flag
variables bound at lines 63-67 set. -/
def request {σ : Type} (client : Clientset σ) (origin destination : String)
    (secrets : List String) (all verbose : Bool) : CopySecretOptions σ :=
  { NewCopySecretOptions client with
    originNS := origin, destinationNS := destination, secrets := secrets,
    allSecrets := all, verbose := verbose }

/-- The command of a `--secret ...` invocation: `GetBool("all")` returns false. -/
def byNameCmd : Command := ⟨(false, none)⟩

/-- The command of an `--all` invocation: `GetBool("all")` returns true. -/
def allCmd : Command := ⟨(true, none)⟩

/-- A sample secret carrying origin-scoped metadata. -/
def sampleSecret (ns name : String) : Secret :=
  { TypeMeta := { Kind := "Secret", APIVersion := "v1" },
    ObjectMeta := { Name := name, Namespace := ns, UID := "uid-" ++ name,
                    ResourceVersion := "7", Labels := [("app", "demo")] },
    Data := [("key", [104, 105])],
    Type_ := "Opaque" }

/-- The store of the scenario of the specification: namespace `ns1` holds the
secrets a, b and c, every other namespace is empty. -/
def abcStore : Store := fun ns =>
  if ns = "ns1" then [sampleSecret "ns1" "a", sampleSecret "ns1" "b", sampleSecret "ns1" "c"]
  else []

/-- A store whose lookup channel always fails: every `Get` and every `List` returns
a transport error. -/
def downFaults : Faults :=
  ⟨fun _ _ => some (Err.other "connection refused"),
   fun _ => some (Err.other "connection refused")⟩

/-- The scenario store with a secret named b already present in namespace `ns2`. -/
def takenStore : Store := fun ns =>
  if ns = "ns2" then [sampleSecret "ns2" "b"] else abcStore ns

/-- The options after sourcing `--secret a,a` from `ns1` of the scenario store:
the secret a is in the sourced list twice. -/
def twiceA : CopySecretOptions Store :=
  { request (memClient noFaults) "ns1" "ns2" ["a", "a"] false false with
    oSecrets := [sampleSecret "ns1" "a", sampleSecret "ns1" "a"] }

/-- The options after sourcing `--secret a,b,c` from `ns1` of the scenario store. -/
def sourcedABC : CopySecretOptions Store :=
  { request (memClient noFaults) "ns1" "ns2" ["a", "b", "c"] false false with
    oSecrets := [sampleSecret "ns1" "a", sampleSecret "ns1" "b", sampleSecret "ns1" "c"] }

/-! ## Shared lemmas about `Run` -/

theorem newEvents_append (t evs : List Event) : newEvents t.length (t ++ evs) = evs := by
  simp [newEvents]

theorem creates_append (a b : List Event) : creates (a ++ b) = creates a ++ creates b := by
  simp [creates]

theorem writes_append (a b : List Event) : writes (a ++ b) = writes a ++ writes b := by
  simp [writes]

theorem putSecret_eq {σ : Type} (i : SecretInterface σ) (s : Secret) (w : World σ) :
    putSecret i s w =
      (errOf (i.client.create i.ns s w.store).1,
       ⟨(i.client.create i.ns s w.store).2, w.trace ++ [Event.create i.ns s]⟩) := by
  unfold putSecret SecretInterface.Create
  rcases h : i.client.create i.ns s w.store with ⟨r, st⟩
  cases r <;> simp [errOf]

theorem PutSecret_eq {σ : Type} (o : CopySecretOptions σ) (dest : String) (s : Secret)
    (w : World σ) :
    PutSecret o dest s w =
      (errOf (o.client.create dest s w.store).1,
       ⟨(o.client.create dest s w.store).2,
        w.trace ++ putEvents o.verbose dest s (errOf (o.client.create dest s w.store).1)⟩) := by
  unfold PutSecret
  simp only [putSecret_eq, Clientset.Secrets]
  rcases h : o.client.create dest s w.store with ⟨r, st⟩
  cases r <;> cases o.verbose <;> simp [errOf, putEvents, Fprintf, h]

theorem runStep_eq {σ : Type} (o : CopySecretOptions σ) (w : World σ) (secret : Secret) :
    runStep o w secret =
      ⟨(o.client.create o.destinationNS (placed o.destinationNS secret) w.store).2,
       w.trace ++ stepEvents o.verbose o.destinationNS (placed o.destinationNS secret)
         (errOf (o.client.create o.destinationNS (placed o.destinationNS secret) w.store).1)⟩ := by
  have hdef : runStep o w secret =
      (match PutSecret o o.destinationNS (placed o.destinationNS secret) w with
       | (some err, w1) =>
         Fprintf (Output.errorPutting (placed o.destinationNS secret).ObjectMeta.Name
           o.destinationNS err) w1
       | (none, w1) => w1) := rfl
  rw [hdef, PutSecret_eq]
  rcases h : o.client.create o.destinationNS (placed o.destinationNS secret) w.store with ⟨r, st⟩
  cases r <;> simp [errOf, stepEvents, Fprintf]

theorem creates_stepEvents (v : Bool) (dest : String) (s : Secret) (r : Option Err) :
    creates (stepEvents v dest s r) = [(dest, s)] := by
  cases r <;> cases v <;> simp [stepEvents, putEvents, creates, createCall]

/-- One iteration of `Run` appends events holding exactly one `Create`, issued on
the destination namespace with the rebuilt object. -/
theorem runStep_trace {σ : Type} (o : CopySecretOptions σ) (w : World σ) (secret : Secret) :
    ∃ evs, (runStep o w secret).trace = w.trace ++ evs ∧
      creates evs = [(o.destinationNS, placed o.destinationNS secret)] := by
  rw [runStep_eq]
  exact ⟨_, rfl, creates_stepEvents _ _ _ _⟩

theorem foldl_runStep_trace {σ : Type} (o : CopySecretOptions σ) (l : List Secret)
    (w : World σ) :
    ∃ evs, (l.foldl (runStep o) w).trace = w.trace ++ evs ∧
      creates evs = l.map (fun secret => (o.destinationNS, placed o.destinationNS secret)) := by
  induction l generalizing w with
  | nil => exact ⟨[], by simp, by simp [creates]⟩
  | cons s l ih =>
    obtain ⟨e1, h1, c1⟩ := runStep_trace o w s
    obtain ⟨e2, h2, c2⟩ := ih (runStep o w s)
    refine ⟨e1 ++ e2, ?_, ?_⟩
    · simp only [List.foldl_cons, h2, h1, List.append_assoc]
    · simp only [creates_append, c1, c2, List.map_cons, List.singleton_append]

/-- The `Create` calls issued by `Run`: one per sourced secret, in order, on the
destination namespace, each with the rebuilt object. -/
theorem Run_creates {σ : Type} (o : CopySecretOptions σ) (w : World σ) :
    creates (newEvents w.trace.length (Run o w).trace) =
      o.oSecrets.map (fun secret => (o.destinationNS, placed o.destinationNS secret)) := by
  obtain ⟨evs, h, c⟩ := foldl_runStep_trace o o.oSecrets w
  unfold Run
  rw [h, newEvents_append, c]

/-! ## Shared lemmas about sourcing -/

theorem AddSingleSecret_eq {σ : Type} (o : CopySecretOptions σ) (ns name : String)
    (w : World σ) :
    AddSingleSecret o ns name w =
      (match (o.client.get ns name w.store).1 with
       | Except.error err =>
         (some err, o, ⟨(o.client.get ns name w.store).2,
            w.trace ++ getEvents o.verbose ns name (some err)⟩)
       | Except.ok s =>
         (none, { o with oSecrets := o.oSecrets ++ [s] },
            ⟨(o.client.get ns name w.store).2, w.trace ++ getEvents o.verbose ns name none⟩)) := by
  unfold AddSingleSecret getSingleSecret SecretInterface.Get Clientset.Secrets
  rcases h : o.client.get ns name w.store with ⟨r, st⟩
  cases r <;> cases hv : o.verbose <;> simp [getEvents, Fprintf, h, hv]

theorem sourceStep_eq {σ : Type} (o : CopySecretOptions σ) (el : List String) (w : World σ)
    (s : String) :
    sourceStep (o, el, w) s =
      (match (o.client.get o.originNS s w.store).1 with
       | Except.error err =>
         (o, el ++ [s], ⟨(o.client.get o.originNS s w.store).2,
            w.trace ++ getEvents o.verbose o.originNS s (some err)⟩)
       | Except.ok x =>
         ({ o with oSecrets := o.oSecrets ++ [x] }, el,
            ⟨(o.client.get o.originNS s w.store).2,
             w.trace ++ getEvents o.verbose o.originNS s none⟩)) := by
  unfold sourceStep
  simp only [AddSingleSecret_eq]
  cases (o.client.get o.originNS s w.store).1 <;> rfl

theorem creates_getEvents (v : Bool) (ns name : String) (r : Option Err) :
    creates (getEvents v ns name r) = [] := by
  cases r <;> cases v <;> simp [getEvents, creates, createCall]

/-- The by-name loop keeps every request field of the options and issues no
`Create`. -/
theorem foldl_sourceStep_frame {σ : Type} (names : List String) (o : CopySecretOptions σ)
    (el : List String) (w : World σ) :
    (names.foldl sourceStep (o, el, w)).1.secrets = o.secrets ∧
    (names.foldl sourceStep (o, el, w)).1.allSecrets = o.allSecrets ∧
    (names.foldl sourceStep (o, el, w)).1.originNS = o.originNS ∧
    (names.foldl sourceStep (o, el, w)).1.destinationNS = o.destinationNS ∧
    (names.foldl sourceStep (o, el, w)).1.verbose = o.verbose ∧
    (names.foldl sourceStep (o, el, w)).1.client = o.client ∧
    ∃ evs, (names.foldl sourceStep (o, el, w)).2.2.trace = w.trace ++ evs ∧
      creates evs = [] := by
  induction names generalizing o el w with
  | nil => exact ⟨rfl, rfl, rfl, rfl, rfl, rfl, [], by simp, rfl⟩
  | cons s names ih =>
    rw [List.foldl_cons, sourceStep_eq]
    cases hr : (o.client.get o.originNS s w.store).1 with
    | error err =>
      obtain ⟨h1, h2, h3, h4, h5, h6, evs, h7, h8⟩ := ih o (el ++ [s])
        ⟨(o.client.get o.originNS s w.store).2,
          w.trace ++ getEvents o.verbose o.originNS s (some err)⟩
      refine ⟨h1, h2, h3, h4, h5, h6, getEvents o.verbose o.originNS s (some err) ++ evs, ?_, ?_⟩
      · simp only [h7, List.append_assoc]
      · simp only [creates_append, creates_getEvents, h8, List.append_nil]
    | ok x =>
      obtain ⟨h1, h2, h3, h4, h5, h6, evs, h7, h8⟩ := ih { o with oSecrets := o.oSecrets ++ [x] } el
        ⟨(o.client.get o.originNS s w.store).2,
          w.trace ++ getEvents o.verbose o.originNS s none⟩
      refine ⟨h1, h2, h3, h4, h5, h6, getEvents o.verbose o.originNS s none ++ evs, ?_, ?_⟩
      · simp only [h7, List.append_assoc]
      · simp only [creates_append, creates_getEvents, h8, List.append_nil]

theorem foldl_found {σ : Type} (l : List Secret) (w : World σ) :
    l.foldl (fun w s => Fprintf (Output.secretFound s.ObjectMeta.Name) w) w =
      ⟨w.store, w.trace ++ l.map (fun s => Event.write (Output.secretFound s.ObjectMeta.Name))⟩ := by
  induction l generalizing w with
  | nil => simp
  | cons s l ih =>
    simp only [List.foldl_cons, ih]
    simp [Fprintf]

theorem foldl_found_unfolded {σ : Type} (l : List Secret) (w : World σ) :
    l.foldl (fun (w : World σ) s =>
        (⟨w.store, w.trace ++ [Event.write (Output.secretFound s.ObjectMeta.Name)]⟩ : World σ)) w =
      ⟨w.store, w.trace ++ l.map (fun s => Event.write (Output.secretFound s.ObjectMeta.Name))⟩ :=
  foldl_found l w

theorem foldl_snoc (f : List Secret → Secret → List Secret)
    (hf : ∀ acc s, f acc s = acc ++ [s]) (items init : List Secret) :
    items.foldl f init = init ++ items := by
  induction items generalizing init with
  | nil => simp
  | cons s l ih => simp [ih, hf]

theorem AllSecretsFrom_eq {σ : Type} (o : CopySecretOptions σ) (ns : String) (w : World σ) :
    AllSecretsFrom o ns w =
      (match (o.client.list ns w.store).1 with
       | Except.error err =>
         (some err, { o with oSecrets := [] }, ⟨(o.client.list ns w.store).2,
            w.trace ++ ([Event.list ns] ++ optWrite o.verbose (Output.errorListing err))⟩)
       | Except.ok items =>
         (none, { o with oSecrets := items },
            ⟨(o.client.list ns w.store).2, w.trace ++ [Event.list ns]⟩)) := by
  unfold AllSecretsFrom allSecretsFrom SecretInterface.List Clientset.Secrets
  rcases h : o.client.list ns w.store with ⟨r, st⟩
  cases r <;> cases hv : o.verbose <;>
    simp [optWrite, Fprintf, h, hv, foldl_snoc _ (fun _ _ => rfl)]

/-- `SourceSecrets` when the flag lookup itself fails. -/
theorem SourceSecrets_flagError {σ : Type} (o : CopySecretOptions σ) (cmd : Command)
    (w : World σ) (err : Err) (h : cmd.GetBoolAll.2 = some err) :
    SourceSecrets o cmd w = (some err, { o with allSecrets := cmd.GetBoolAll.1 }, w) := by
  unfold SourceSecrets
  simp [h]

/-- `SourceSecrets` in by-name mode, as one pass of the loop followed by the
aggregated diagnostic and the found lines. -/
theorem SourceSecrets_byName {σ : Type} (o : CopySecretOptions σ) (cmd : Command)
    (w : World σ) (h : cmd.GetBoolAll = (false, none)) :
    SourceSecrets o cmd w =
      (none,
       (o.secrets.foldl sourceStep ({ o with allSecrets := false }, [],
          ⟨w.store, w.trace ++ optWrite o.verbose (Output.gettingSecrets o.secrets)⟩)).1,
       ⟨(o.secrets.foldl sourceStep ({ o with allSecrets := false }, [],
          ⟨w.store, w.trace ++ optWrite o.verbose (Output.gettingSecrets o.secrets)⟩)).2.2.store,
        (o.secrets.foldl sourceStep ({ o with allSecrets := false }, [],
          ⟨w.store, w.trace ++ optWrite o.verbose (Output.gettingSecrets o.secrets)⟩)).2.2.trace ++
        (optWrite (decide ((o.secrets.foldl sourceStep ({ o with allSecrets := false }, [],
          ⟨w.store, w.trace ++ optWrite o.verbose (Output.gettingSecrets o.secrets)⟩)).2.1 ≠ []))
          (Output.skipped (o.secrets.foldl sourceStep ({ o with allSecrets := false }, [],
          ⟨w.store, w.trace ++ optWrite o.verbose (Output.gettingSecrets o.secrets)⟩)).2.1) ++
         foundEvents o.verbose (o.secrets.foldl sourceStep ({ o with allSecrets := false }, [],
          ⟨w.store, w.trace ++ optWrite o.verbose (Output.gettingSecrets o.secrets)⟩)).1.oSecrets)⟩) := by
  have hw : (if o.verbose = true then Fprintf (Output.gettingSecrets o.secrets) w else w) =
      ⟨w.store, w.trace ++ optWrite o.verbose (Output.gettingSecrets o.secrets)⟩ := by
    cases o.verbose <;> simp [optWrite, Fprintf]
  obtain ⟨-, -, -, -, hv, -, -⟩ := foldl_sourceStep_frame o.secrets { o with allSecrets := false } []
    ⟨w.store, w.trace ++ optWrite o.verbose (Output.gettingSecrets o.secrets)⟩
  unfold SourceSecrets
  simp only [h, Bool.not_false, if_true, hw]
  generalize o.secrets.foldl sourceStep ({ o with allSecrets := false }, [],
          ⟨w.store, w.trace ++ optWrite o.verbose (Output.gettingSecrets o.secrets)⟩) = r at hv ⊢
  obtain ⟨o1, el, w1⟩ := r
  simp only at hv
  cases el <;> cases hvb : o.verbose <;>
    simp [hv, hvb, optWrite, foundEvents, foldl_found] <;> simp [Fprintf]

/-- `SourceSecrets` in all-secrets mode, by the outcome of the `List` call. -/
theorem SourceSecrets_all {σ : Type} (o : CopySecretOptions σ) (cmd : Command)
    (w : World σ) (h : cmd.GetBoolAll = (true, none)) :
    SourceSecrets o cmd w =
      (match (o.client.list o.originNS w.store).1 with
       | Except.error err =>
         (some err, { o with allSecrets := true, oSecrets := [] },
          ⟨(o.client.list o.originNS w.store).2,
           w.trace ++ (optWrite o.verbose (Output.gettingAll o.originNS) ++ [Event.list o.originNS] ++
             optWrite o.verbose (Output.errorListing err) ++
             [Event.write (Output.errorGettingAll o.originNS err)])⟩)
       | Except.ok items =>
         (none, { o with allSecrets := true, oSecrets := items },
          ⟨(o.client.list o.originNS w.store).2,
           w.trace ++ (optWrite o.verbose (Output.gettingAll o.originNS) ++ [Event.list o.originNS] ++
             foundEvents o.verbose items)⟩)) := by
  unfold SourceSecrets
  simp only [h, AllSecretsFrom_eq]
  rcases hl : o.client.list o.originNS w.store with ⟨r, st⟩
  cases r <;> cases hvb : o.verbose <;>
    simp [hvb, hl, optWrite, foundEvents, foldl_found_unfolded, Fprintf]

theorem creates_optWrite (b : Bool) (line : Output) : creates (optWrite b line) = [] := by
  cases b <;> simp [optWrite, creates, createCall]

theorem creates_foundEvents (v : Bool) (l : List Secret) : creates (foundEvents v l) = [] := by
  cases v <;> simp [foundEvents, creates, createCall]

/-- Sourcing keeps the destination, the verbose flag, the origin and the client,
and issues no `Create`. -/
theorem SourceSecrets_frame {σ : Type} (o : CopySecretOptions σ) (cmd : Command)
    (w : World σ) :
    (SourceSecrets o cmd w).2.1.destinationNS = o.destinationNS ∧
    (SourceSecrets o cmd w).2.1.verbose = o.verbose ∧
    (SourceSecrets o cmd w).2.1.originNS = o.originNS ∧
    (SourceSecrets o cmd w).2.1.client = o.client ∧
    ∃ evs, (SourceSecrets o cmd w).2.2.trace = w.trace ++ evs ∧ creates evs = [] := by
  rcases hc : cmd.GetBoolAll with ⟨b, e⟩
  cases e with
  | some err =>
    rw [SourceSecrets_flagError o cmd w err (by rw [hc])]
    exact ⟨rfl, rfl, rfl, rfl, [], by simp, rfl⟩
  | none =>
    cases b with
    | false =>
      rw [SourceSecrets_byName o cmd w hc]
      obtain ⟨-, -, h3, h4, h5, h6, evs, h7, h8⟩ := foldl_sourceStep_frame o.secrets
        { o with allSecrets := false } []
        ⟨w.store, w.trace ++ optWrite o.verbose (Output.gettingSecrets o.secrets)⟩
      generalize o.secrets.foldl sourceStep ({ o with allSecrets := false }, [],
        ⟨w.store, w.trace ++ optWrite o.verbose (Output.gettingSecrets o.secrets)⟩) = r
        at h3 h4 h5 h6 h7 ⊢
      obtain ⟨o1, el, w1⟩ := r
      simp only at h3 h4 h5 h6 h7 ⊢
      refine ⟨h4, h5, h3, h6,
        optWrite o.verbose (Output.gettingSecrets o.secrets) ++ evs ++
          (optWrite (decide (el ≠ [])) (Output.skipped el) ++ foundEvents o.verbose o1.oSecrets),
        ?_, ?_⟩
      · simp only [h7, List.append_assoc]
      · simp only [creates_append, creates_optWrite, creates_foundEvents, h8, List.append_nil]
    | true =>
      rw [SourceSecrets_all o cmd w hc]
      cases (o.client.list o.originNS w.store).1 with
      | error err =>
        refine ⟨rfl, rfl, rfl, rfl, _, rfl, ?_⟩
        simp only [creates_append, creates_optWrite, List.append_nil, List.nil_append]
        rfl
      | ok items =>
        refine ⟨rfl, rfl, rfl, rfl, _, rfl, ?_⟩
        simp only [creates_append, creates_optWrite, creates_foundEvents, List.append_nil,
          List.nil_append]
        rfl

/-- The `Create` calls of a whole invocation: those of `Run` on the sourced list
when sourcing returned no error, none otherwise. -/
theorem RunE_creates {σ : Type} (o : CopySecretOptions σ) (cmd : Command) (w : World σ) :
    creates (newEvents w.trace.length (RunE o cmd w).2.2.trace) =
      if (SourceSecrets o cmd w).1 = none then
        (SourceSecrets o cmd w).2.1.oSecrets.map
          (fun secret => (o.destinationNS, placed o.destinationNS secret))
      else [] := by
  obtain ⟨hd, -, -, -, evs, ht, hc⟩ := SourceSecrets_frame o cmd w
  unfold RunE
  rcases hs : SourceSecrets o cmd w with ⟨e, o1, w1⟩
  rw [hs] at hd ht
  simp only at hd ht
  cases e with
  | some err => simp [ht, newEvents, hc]
  | none =>
    obtain ⟨evs2, h2, c2⟩ := foldl_runStep_trace o1 o1.oSecrets w1
    simp only [Run, h2, ht, List.append_assoc, newEvents_append, creates_append, hc, c2, hd,
      List.nil_append, if_true]

/-! ## The pipeline on the reference store -/

theorem memGet_store (f : Faults) (ns name : String) (st : Store) :
    (memGet f ns name st).2 = st := by
  unfold memGet
  cases f.get ns name <;> simp only
  cases lookup (st ns) name <;> rfl

theorem memGet_noFault (f : Faults) (ns name : String) (st : Store)
    (h : f.get ns name = none) :
    okOf (memGet f ns name st).1 = lookup (st ns) name := by
  unfold memGet
  rw [h]
  simp only
  cases lookup (st ns) name <;> rfl

theorem foundSecrets_noFault (f : Faults) (st : Store) (ns : String) (names : List String)
    (h : ∀ n ∈ names, f.get ns n = none) :
    foundSecrets f st ns names = names.filterMap (fun name => lookup (st ns) name) := by
  induction names with
  | nil => rfl
  | cons n names ih =>
    have hn := memGet_noFault f ns n st (h n (List.mem_cons_self _ _))
    have ih := ih (fun m hm => h m (List.mem_cons_of_mem _ hm))
    unfold foundSecrets at ih ⊢
    rw [List.filterMap_cons, List.filterMap_cons, hn, ih]

/-- The by-name loop on the reference store: the secrets found are appended in
name order, the names whose `Get` failed are appended to `errList`, the store is
untouched, and each name contributes its `Get` call (and, when verbose, its own
error line) to the trace. -/
theorem foldl_sourceStep_mem (f : Faults) (names : List String) (o : CopySecretOptions Store)
    (el : List String) (w : World Store) (hc : o.client = memClient f) :
    names.foldl sourceStep (o, el, w) =
      ({ o with oSecrets := o.oSecrets ++
          names.filterMap (fun n => okOf (memGet f o.originNS n w.store).1) },
       el ++ names.filter (fun n => (errOf (memGet f o.originNS n w.store).1).isSome),
       ⟨w.store, w.trace ++ names.flatMap (fun n =>
          getEvents o.verbose o.originNS n (errOf (memGet f o.originNS n w.store).1))⟩) := by
  induction names generalizing o el w with
  | nil => simp
  | cons s names ih =>
    rw [List.foldl_cons, sourceStep_eq]
    have hg : o.client.get o.originNS s w.store = memGet f o.originNS s w.store := by
      rw [hc]; rfl
    rw [hg, memGet_store]
    cases hr : (memGet f o.originNS s w.store).1 with
    | error err =>
      simp only
      rw [ih o _ _ hc]
      simp [hr, errOf, okOf, List.flatMap_cons]
    | ok x =>
      simp only
      rw [ih _ _ _ (show ({ o with oSecrets := o.oSecrets ++ [x] } : CopySecretOptions Store).client
        = memClient f from hc)]
      simp [hr, errOf, okOf, List.flatMap_cons]

theorem memList_store (f : Faults) (ns : String) (st : Store) :
    (memList f ns st).2 = st := by
  unfold memList
  cases f.list ns <;> rfl

theorem memCreate_exists (ns : String) (s : Secret) (st : Store)
    (h : hasName (st ns) s.ObjectMeta.Name = true) :
    memCreate ns s st = (Except.error (Err.alreadyExists s.ObjectMeta.Name), st) := by
  unfold memCreate
  rw [if_pos h]

theorem memCreate_fresh (ns : String) (s : Secret) (st : Store)
    (h : hasName (st ns) s.ObjectMeta.Name = false) :
    memCreate ns s st =
      (Except.ok s, fun n => if n = ns then st n ++ [s] else st n) := by
  unfold memCreate
  rw [if_neg (by simp [h])]

theorem memCreate_other (ns : String) (s : Secret) (st : Store) (n : String) (h : n ≠ ns) :
    (memCreate ns s st).2 n = st n := by
  unfold memCreate
  split
  · rfl
  · simp [h]

theorem memCreate_dest (ns : String) (s : Secret) (st : Store) :
    ∃ added, (memCreate ns s st).2 ns = st ns ++ added := by
  unfold memCreate
  split
  · exact ⟨[], by simp⟩
  · exact ⟨[s], by simp⟩

theorem runStep_mem_store (f : Faults) (o : CopySecretOptions Store) (w : World Store)
    (secret : Secret) (hc : o.client = memClient f) :
    (runStep o w secret).store =
      (memCreate o.destinationNS (placed o.destinationNS secret) w.store).2 := by
  rw [runStep_eq, hc]
  rfl

/-- On the reference store `Run` leaves every namespace but the destination as it
was and only appends to the destination. -/
theorem foldl_runStep_mem_frame (f : Faults) (o : CopySecretOptions Store) (l : List Secret)
    (w : World Store) (hc : o.client = memClient f) :
    (∀ ns, ns ≠ o.destinationNS → (l.foldl (runStep o) w).store ns = w.store ns) ∧
    ∃ added, (l.foldl (runStep o) w).store o.destinationNS =
      w.store o.destinationNS ++ added := by
  induction l generalizing w with
  | nil => exact ⟨fun _ _ => rfl, [], by simp⟩
  | cons s l ih =>
    obtain ⟨h1, added, h2⟩ := ih (runStep o w s)
    obtain ⟨a0, h0⟩ := memCreate_dest o.destinationNS (placed o.destinationNS s) w.store
    rw [List.foldl_cons]
    refine ⟨fun ns hns => ?_, a0 ++ added, ?_⟩
    · rw [h1 ns hns, runStep_mem_store f o w s hc, memCreate_other _ _ _ _ hns]
    · rw [h2, runStep_mem_store f o w s hc, h0, List.append_assoc]

/-- On the reference store `Run` changes nothing when every sourced name is
already taken in the destination. -/
theorem foldl_runStep_mem_noop (f : Faults) (o : CopySecretOptions Store) (l : List Secret)
    (w : World Store) (hc : o.client = memClient f)
    (h : ∀ s ∈ l, hasName (w.store o.destinationNS) s.ObjectMeta.Name = true) :
    (l.foldl (runStep o) w).store = w.store := by
  induction l generalizing w with
  | nil => rfl
  | cons s l ih =>
    have hs : (runStep o w s).store = w.store := by
      rw [runStep_mem_store f o w s hc,
        memCreate_exists o.destinationNS (placed o.destinationNS s) w.store
          (h s (List.mem_cons_self _ _))]
    rw [List.foldl_cons, ih (runStep o w s) (by
      intro t ht
      rw [hs]
      exact h t (List.mem_cons_of_mem _ ht)), hs]

theorem errorPutting_stepEvents (v : Bool) (dest : String) (s : Secret) (r : Option Err) :
    ((writes (stepEvents v dest s r)).filter isErrorPutting).length =
      if r.isSome then 1 else 0 := by
  cases r <;> cases v <;> rfl

theorem hasName_append_singleton (l : List Secret) (x : Secret) (n : String) :
    hasName (l ++ [x]) n = (hasName l n || x.ObjectMeta.Name == n) := by
  simp [hasName]

/-- On the reference store, for sourced secrets of pairwise distinct names, `Run`
fails exactly on the names present in the destination beforehand and appends the
rebuilt object of every other secret, in order. -/
theorem foldl_runStep_mem_count (f : Faults) (o : CopySecretOptions Store) (l : List Secret)
    (w : World Store) (hc : o.client = memClient f)
    (hn : (l.map (fun s => s.ObjectMeta.Name)).Nodup) :
    (∃ evs, (l.foldl (runStep o) w).trace = w.trace ++ evs ∧
      ((writes evs).filter isErrorPutting).length =
        (l.filter (fun s => hasName (w.store o.destinationNS) s.ObjectMeta.Name)).length) ∧
    (l.foldl (runStep o) w).store o.destinationNS =
      w.store o.destinationNS ++
        (l.filter (fun s => !hasName (w.store o.destinationNS) s.ObjectMeta.Name)).map
          (placed o.destinationNS) := by
  induction l generalizing w with
  | nil => exact ⟨⟨[], by simp, rfl⟩, by simp⟩
  | cons s l ih =>
    rw [List.map_cons, List.nodup_cons] at hn
    obtain ⟨hs, hl⟩ := hn
    have hstep0 : runStep o w s =
        ⟨(memCreate o.destinationNS (placed o.destinationNS s) w.store).2,
         w.trace ++ stepEvents o.verbose o.destinationNS (placed o.destinationNS s)
           (errOf (memCreate o.destinationNS (placed o.destinationNS s) w.store).1)⟩ := by
      rw [runStep_eq, hc]
      rfl
    cases hx : hasName (w.store o.destinationNS) s.ObjectMeta.Name with
    | true =>
      have hstep : runStep o w s =
          ⟨w.store, w.trace ++ stepEvents o.verbose o.destinationNS (placed o.destinationNS s)
            (some (Err.alreadyExists s.ObjectMeta.Name))⟩ := by
        rw [hstep0, memCreate_exists o.destinationNS (placed o.destinationNS s) w.store hx]
        rfl
      obtain ⟨⟨evs, ht, hk⟩, hst⟩ := ih (runStep o w s) hl
      rw [hstep] at ht hk hst
      simp only at ht hk hst
      refine ⟨⟨stepEvents o.verbose o.destinationNS (placed o.destinationNS s)
            (some (Err.alreadyExists s.ObjectMeta.Name)) ++ evs, ?_, ?_⟩, ?_⟩
      · rw [List.foldl_cons, hstep, ht, List.append_assoc]
      · rw [writes_append, List.filter_append, List.length_append, errorPutting_stepEvents, hk]
        simp [List.filter_cons, hx, Nat.add_comm]
      · rw [List.foldl_cons, hstep, hst]
        simp [List.filter_cons, hx]
    | false =>
      have hstep : runStep o w s =
          ⟨fun n => if n = o.destinationNS then w.store n ++ [placed o.destinationNS s]
              else w.store n,
            w.trace ++ stepEvents o.verbose o.destinationNS (placed o.destinationNS s) none⟩ := by
        rw [hstep0, memCreate_fresh o.destinationNS (placed o.destinationNS s) w.store hx]
        rfl
      obtain ⟨⟨evs, ht, hk⟩, hst⟩ := ih (runStep o w s) hl
      rw [hstep] at ht hk hst
      simp only [if_true] at ht hk hst
      have hsame : ∀ t ∈ l,
          hasName (w.store o.destinationNS ++ [placed o.destinationNS s]) t.ObjectMeta.Name =
            hasName (w.store o.destinationNS) t.ObjectMeta.Name := by
        intro t ht'
        rw [hasName_append_singleton]
        have hne : s.ObjectMeta.Name ≠ t.ObjectMeta.Name := by
          intro he
          exact hs (List.mem_map.mpr ⟨t, ht', he.symm⟩)
        have : ((placed o.destinationNS s).ObjectMeta.Name == t.ObjectMeta.Name) = false := by
          simpa [placed] using hne
        rw [this, Bool.or_false]
      rw [List.filter_congr hsame] at hk
      rw [List.filter_congr (fun t ht' => by rw [hsame t ht'])] at hst
      refine ⟨⟨stepEvents o.verbose o.destinationNS (placed o.destinationNS s) none ++ evs,
        ?_, ?_⟩, ?_⟩
      · rw [List.foldl_cons, hstep, ht, List.append_assoc]
      · rw [writes_append, List.filter_append, List.length_append, errorPutting_stepEvents, hk]
        simp [List.filter_cons, hx]
      · rw [List.foldl_cons, hstep, hst]
        simp [List.filter_cons, hx]

/-- `SourceSecrets` in by-name mode on the reference store, in closed form. -/
theorem SourceSecrets_byName_mem (f : Faults) (o : CopySecretOptions Store) (cmd : Command)
    (w : World Store) (hc : o.client = memClient f) (hcmd : cmd.GetBoolAll = (false, none)) :
    SourceSecrets o cmd w =
      (none,
       { o with allSecrets := false,
                oSecrets := o.oSecrets ++ foundSecrets f w.store o.originNS o.secrets },
       ⟨w.store, w.trace ++
          (optWrite o.verbose (Output.gettingSecrets o.secrets) ++
           o.secrets.flatMap (fun n =>
             getEvents o.verbose o.originNS n (errOf (memGet f o.originNS n w.store).1)) ++
           optWrite (decide (failedNames f w.store o.originNS o.secrets ≠ []))
             (Output.skipped (failedNames f w.store o.originNS o.secrets)) ++
           foundEvents o.verbose
             (o.oSecrets ++ foundSecrets f w.store o.originNS o.secrets))⟩) := by
  rw [SourceSecrets_byName o cmd w hcmd,
    foldl_sourceStep_mem f o.secrets { o with allSecrets := false } [] _ hc]
  simp [failedNames, foundSecrets, List.append_assoc]

theorem writes_lookups (f : Faults) (st : Store) (v : Bool) (ns : String)
    (names : List String) :
    (writes (names.flatMap (fun n =>
        getEvents v ns n (errOf (memGet f ns n st).1)))).filter isSkipped = [] ∧
    ((writes (names.flatMap (fun n =>
        getEvents v ns n (errOf (memGet f ns n st).1)))).filter isErrorGetting).length =
      if v then (failedNames f st ns names).length else 0 := by
  induction names with
  | nil => cases v <;> exact ⟨rfl, rfl⟩
  | cons n names ih =>
    obtain ⟨h1, h2⟩ := ih
    simp only [List.flatMap_cons, writes_append, List.filter_append, List.length_append, h1, h2,
      failedNames, List.filter_cons]
    cases errOf (memGet f ns n st).1 <;> cases v <;>
      simp [getEvents, writes, writeOf, isSkipped, isErrorGetting, failedNames, Nat.add_comm]

theorem writes_foundEvents (v : Bool) (l : List Secret) :
    (writes (foundEvents v l)).filter isSkipped = [] ∧
    (writes (foundEvents v l)).filter isErrorGetting = [] := by
  cases v
  · exact ⟨rfl, rfl⟩
  · induction l with
    | nil => exact ⟨rfl, rfl⟩
    | cons s l ih =>
      obtain ⟨h1, h2⟩ := ih
      simp only [foundEvents, if_true] at h1 h2
      simp [foundEvents, writes, writeOf, isSkipped, isErrorGetting] at h1 h2 ⊢

/-- On the reference store sourcing leaves the store as it was, and every secret
it appends to the sourced list is a secret of the origin namespace. -/
theorem SourceSecrets_mem_sourced (f : Faults) (o : CopySecretOptions Store) (cmd : Command)
    (w : World Store) (hc : o.client = memClient f) (h0 : o.oSecrets = []) :
    (SourceSecrets o cmd w).2.2.store = w.store ∧
    ∀ s ∈ (SourceSecrets o cmd w).2.1.oSecrets, s ∈ w.store o.originNS := by
  rcases hcmd : cmd.GetBoolAll with ⟨b, e⟩
  cases e with
  | some err =>
    rw [SourceSecrets_flagError o cmd w err (by rw [hcmd])]
    refine ⟨rfl, ?_⟩
    intro s hs
    simp only [h0] at hs
    exact absurd hs (List.not_mem_nil s)
  | none =>
    cases b with
    | false =>
      rw [SourceSecrets_byName_mem f o cmd w hc hcmd]
      refine ⟨rfl, ?_⟩
      intro s hs
      simp only [h0, List.nil_append, foundSecrets, List.mem_filterMap] at hs
      obtain ⟨n, -, hn⟩ := hs
      unfold memGet at hn
      cases hfg : f.get o.originNS n with
      | some err => simp [hfg, okOf] at hn
      | none =>
        simp only [hfg] at hn
        cases hlk : lookup (w.store o.originNS) n with
        | none => simp [hlk, okOf] at hn
        | some x =>
          simp only [hlk, okOf, Option.some.injEq] at hn
          subst hn
          exact List.mem_of_find?_eq_some hlk
    | true =>
      have hlist : o.client.list o.originNS w.store = memList f o.originNS w.store := by
        rw [hc]; rfl
      rw [SourceSecrets_all o cmd w hcmd, hlist, memList_store]
      cases hfl : f.list o.originNS with
      | some err =>
        have h1 : (memList f o.originNS w.store).1 = Except.error err := by
          simp [memList, hfl]
        rw [h1]
        exact ⟨rfl, fun s hs => absurd hs (List.not_mem_nil s)⟩
      | none =>
        have h1 : (memList f o.originNS w.store).1 = Except.ok (w.store o.originNS) := by
          simp [memList, hfl]
        rw [h1]
        exact ⟨rfl, fun s hs => hs⟩

/-! ## The claims -/

/-- C1: every `Create` call `Run` issues is made on the destination namespace and
carries an object whose `Namespace` is the destination namespace, whatever
namespace the sourced secrets carried: the (call namespace, object namespace)
pairs of the calls are the pair (destination, destination), once per sourced
secret. -/
theorem Run_places_in_destination {σ : Type} (o : CopySecretOptions σ) (w : World σ) :
    (creates (newEvents w.trace.length (Run o w).trace)).map
        (fun p => (p.1, p.2.ObjectMeta.Namespace)) =
      List.replicate o.oSecrets.length (o.destinationNS, o.destinationNS) := by
  rw [Run_creates, List.map_map]
  induction o.oSecrets with
  | nil => rfl
  | cons s l ih => simp only [List.map_cons, List.length_cons, List.replicate_succ, ih]; rfl

/-- C3: for any store client, `Run` issues exactly one `Create` per sourced secret,
in sourced order (whatever the earlier calls returned); the `RunE` handler returns
the error of `SourceSecrets` and nothing else, so it returns no error whenever
sourcing returned none; and the `Create` calls of the whole invocation are then
those of `Run` on the sourced list. -/
theorem Run_attempts_every_secret {σ : Type} (o : CopySecretOptions σ) (cmd : Command)
    (w : World σ) :
    creates (newEvents w.trace.length (Run o w).trace) =
      o.oSecrets.map (fun secret => (o.destinationNS, placed o.destinationNS secret)) ∧
    (creates (newEvents w.trace.length (Run o w).trace)).length = o.oSecrets.length ∧
    (RunE o cmd w).1 = (SourceSecrets o cmd w).1 ∧
    creates (newEvents w.trace.length (RunE o cmd w).2.2.trace) =
      (if (SourceSecrets o cmd w).1 = none then
        (SourceSecrets o cmd w).2.1.oSecrets.map
          (fun secret => (o.destinationNS, placed o.destinationNS secret))
      else []) := by
  refine ⟨Run_creates o w, by rw [Run_creates, List.length_map], ?_, RunE_creates o cmd w⟩
  unfold RunE
  rcases SourceSecrets o cmd w with ⟨e, o1, w1⟩
  cases e <;> rfl

/-- C6: the objects `Run` passes to `Create` correspond one to one, in order, to the
sourced secrets; each has the `TypeMeta`, `Name`, `Type`, `Immutable`, `Data` and
`StringData` of its sourced secret, the destination as `Namespace`, and every
other metadata field at its zero value. -/
theorem Run_copies_payload_drops_metadata {σ : Type} (o : CopySecretOptions σ)
    (w : World σ) :
    List.Forall₂
      (fun s p =>
        p.TypeMeta = s.TypeMeta ∧ p.ObjectMeta.Name = s.ObjectMeta.Name ∧
        p.Type_ = s.Type_ ∧ p.Immutable = s.Immutable ∧ p.Data = s.Data ∧
        p.StringData = s.StringData ∧
        p.ObjectMeta.Namespace = o.destinationNS ∧
        p.ObjectMeta.GenerateName = "" ∧ p.ObjectMeta.SelfLink = "" ∧
        p.ObjectMeta.UID = "" ∧ p.ObjectMeta.ResourceVersion = "" ∧
        p.ObjectMeta.Generation = 0 ∧ p.ObjectMeta.CreationTimestamp = none ∧
        p.ObjectMeta.DeletionTimestamp = none ∧
        p.ObjectMeta.DeletionGracePeriodSeconds = none ∧
        p.ObjectMeta.Labels = [] ∧ p.ObjectMeta.Annotations = [] ∧
        p.ObjectMeta.OwnerReferences = [] ∧ p.ObjectMeta.Finalizers = [] ∧
        p.ObjectMeta.ManagedFields = [])
      o.oSecrets
      ((creates (newEvents w.trace.length (Run o w).trace)).map Prod.snd) := by
  rw [Run_creates, List.map_map]
  induction o.oSecrets with
  | nil => exact List.Forall₂.nil
  | cons s l ih =>
    refine List.Forall₂.cons ?_ ih
    simp [placed]

/-- C2, as stated, fails when the lookup channel itself fails: for the request
`--secret a,x,c` from `ns1` of the scenario store, where a and c exist, every `Get`
returns a transport error, so the sourced list is empty and not a, c. -/
theorem SourceSecrets_unreachable_sources_nothing_counterexample :
    ["a", "x", "c"].filterMap (fun name => lookup (abcStore "ns1") name) =
      [sampleSecret "ns1" "a", sampleSecret "ns1" "c"] ∧
    (SourceSecrets (request (memClient downFaults) "ns1" "ns2" ["a", "x", "c"] false false)
      byNameCmd ⟨abcStore, []⟩).2.1.oSecrets = [] ∧
    ¬ ((SourceSecrets (request (memClient downFaults) "ns1" "ns2" ["a", "x", "c"] false false)
        byNameCmd ⟨abcStore, []⟩).2.1.oSecrets =
      ["a", "x", "c"].filterMap (fun name => lookup (abcStore "ns1") name)) := by
  decide

/-- C2 (amended): for a by-name request on the reference store whose lookup
channel does not fail on any requested name (each `Get` finds the name or returns
`NotFound`), starting from the empty sourced list, `SourceSecrets` returns no
error and leaves in `oSecrets` exactly the secrets found under the requested
names in the origin namespace, in the order of the names, the absent names left
out. -/
theorem SourceSecrets_by_name_sources_existing (f : Faults) (o : CopySecretOptions Store)
    (cmd : Command) (w : World Store) (hc : o.client = memClient f)
    (hf : ∀ n ∈ o.secrets, f.get o.originNS n = none)
    (hcmd : cmd.GetBoolAll = (false, none)) (h0 : o.oSecrets = []) :
    (SourceSecrets o cmd w).1 = none ∧
    (SourceSecrets o cmd w).2.1.oSecrets =
      o.secrets.filterMap (fun name => lookup (w.store o.originNS) name) := by
  rw [SourceSecrets_byName_mem f o cmd w hc hcmd]
  refine ⟨rfl, ?_⟩
  simp only [h0, List.nil_append]
  exact foundSecrets_noFault f w.store o.originNS o.secrets hf

/-- The scenario of the specification: origin a, b, c and names a, x, c give the
sourced list a, c. -/
theorem SourceSecrets_by_name_sources_existing_witness :
    (request (memClient noFaults) "ns1" "ns2" ["a", "x", "c"] false false).client
      = memClient noFaults ∧
    (∀ n ∈ (request (memClient noFaults) "ns1" "ns2" ["a", "x", "c"] false false).secrets,
      noFaults.get
        (request (memClient noFaults) "ns1" "ns2" ["a", "x", "c"] false false).originNS n
        = none) ∧
    byNameCmd.GetBoolAll = (false, none) ∧
    (request (memClient noFaults) "ns1" "ns2" ["a", "x", "c"] false false).oSecrets = [] ∧
    ((SourceSecrets (request (memClient noFaults) "ns1" "ns2" ["a", "x", "c"] false false)
        byNameCmd ⟨abcStore, []⟩).1 = none ∧
     (SourceSecrets (request (memClient noFaults) "ns1" "ns2" ["a", "x", "c"] false false)
        byNameCmd ⟨abcStore, []⟩).2.1.oSecrets =
       ["a", "x", "c"].filterMap (fun name => lookup (abcStore "ns1") name)) ∧
    ["a", "x", "c"].filterMap (fun name => lookup (abcStore "ns1") name) =
      [sampleSecret "ns1" "a", sampleSecret "ns1" "c"] :=
  ⟨rfl, fun _ _ => rfl, rfl, rfl,
   SourceSecrets_by_name_sources_existing noFaults
     (request (memClient noFaults) "ns1" "ns2" ["a", "x", "c"] false false)
     byNameCmd ⟨abcStore, []⟩ rfl (fun _ _ => rfl) rfl rfl,
   by decide⟩

/-- C4, as stated, fails on a sourced list that holds a name twice (reached by
`--secret a,a`): no sourced name exists in the destination (K = 0, N = 2), yet the
second `Create` fails on the secret the first one created, so one diagnostic is
written and one secret is created. -/
theorem Run_duplicate_name_counterexample :
    (SourceSecrets (request (memClient noFaults) "ns1" "ns2" ["a", "a"] false false)
        byNameCmd ⟨abcStore, []⟩).2.1.oSecrets = twiceA.oSecrets ∧
    ¬ (((writes (newEvents 0 (Run twiceA ⟨abcStore, []⟩).trace)).filter isErrorPutting).length =
          (twiceA.oSecrets.filter
            (fun s => hasName (abcStore "ns2") s.ObjectMeta.Name)).length ∧
       ((Run twiceA ⟨abcStore, []⟩).store "ns2").length =
          (abcStore "ns2").length +
            (twiceA.oSecrets.length -
              (twiceA.oSecrets.filter
                (fun s => hasName (abcStore "ns2") s.ObjectMeta.Name)).length)) := by
  decide

/-- C4 (amended): on the reference store, for a sourced list of N secrets with
pairwise distinct names of which K have a name that exists in the destination
namespace beforehand, `Run` writes exactly K "error putting secret" diagnostics
and the destination gains exactly the rebuilt objects of the other N-K secrets,
in sourced order, wherever the K failing secrets stand in the list. -/
theorem Run_existing_names_fail (f : Faults) (o : CopySecretOptions Store) (w : World Store)
    (hc : o.client = memClient f)
    (hn : (o.oSecrets.map (fun s => s.ObjectMeta.Name)).Nodup) :
    ((writes (newEvents w.trace.length (Run o w).trace)).filter isErrorPutting).length =
      (o.oSecrets.filter
        (fun s => hasName (w.store o.destinationNS) s.ObjectMeta.Name)).length ∧
    (Run o w).store o.destinationNS =
      w.store o.destinationNS ++
        (o.oSecrets.filter
          (fun s => !hasName (w.store o.destinationNS) s.ObjectMeta.Name)).map
            (placed o.destinationNS) ∧
    ((Run o w).store o.destinationNS).length =
      (w.store o.destinationNS).length +
        (o.oSecrets.length -
          (o.oSecrets.filter
            (fun s => hasName (w.store o.destinationNS) s.ObjectMeta.Name)).length) := by
  obtain ⟨⟨evs, ht, hk⟩, hst⟩ := foldl_runStep_mem_count f o o.oSecrets w hc hn
  have hlen : (o.oSecrets.filter
        (fun s => !hasName (w.store o.destinationNS) s.ObjectMeta.Name)).length =
      o.oSecrets.length -
        (o.oSecrets.filter
          (fun s => hasName (w.store o.destinationNS) s.ObjectMeta.Name)).length := by
    generalize o.oSecrets = l
    induction l with
    | nil => rfl
    | cons s l ih =>
      have hle := List.length_filter_le
        (fun s => hasName (w.store o.destinationNS) s.ObjectMeta.Name) l
      cases hx : hasName (w.store o.destinationNS) s.ObjectMeta.Name <;>
        simp [List.filter_cons, hx, ih]; omega
  unfold Run
  refine ⟨?_, hst, ?_⟩
  · rw [ht, newEvents_append, hk]
  · rw [hst, List.length_append, List.length_map, hlen]

/-- Sourced a, b, c placed into a destination that already holds b: one
diagnostic, two creations. -/
theorem Run_existing_names_fail_witness :
    sourcedABC.client = memClient noFaults ∧
    (sourcedABC.oSecrets.map (fun s => s.ObjectMeta.Name)).Nodup ∧
    ((writes (newEvents 0 (Run sourcedABC ⟨takenStore, []⟩).trace)).filter
        isErrorPutting).length = 1 ∧
    ((Run sourcedABC ⟨takenStore, []⟩).store "ns2").length = 1 + (3 - 1) :=
  have h := Run_existing_names_fail noFaults sourcedABC ⟨takenStore, []⟩ rfl (by decide)
  ⟨rfl, by decide, h.1.trans (by decide), h.2.2.trans (by decide)⟩

/-- C5: for an all-secrets request whose `List` call on the origin namespace
fails with `err`, `SourceSecrets` returns `err`; `RunE` returns what
`SourceSecrets` returned (error, options and world) without running `Run`; the
only store call of the invocation is that `List`, so no `Create` is issued; and
the store is as the failed `List` left it, hence unchanged when that call did not
touch it. -/
theorem RunE_list_failure_aborts {σ : Type} (o : CopySecretOptions σ) (cmd : Command)
    (w : World σ) (err : Err) (hcmd : cmd.GetBoolAll = (true, none))
    (hl : (o.client.list o.originNS w.store).1 = Except.error err) :
    (SourceSecrets o cmd w).1 = some err ∧
    RunE o cmd w = SourceSecrets o cmd w ∧
    (RunE o cmd w).1 = some err ∧
    newEvents w.trace.length (RunE o cmd w).2.2.trace =
      optWrite o.verbose (Output.gettingAll o.originNS) ++ [Event.list o.originNS] ++
        optWrite o.verbose (Output.errorListing err) ++
        [Event.write (Output.errorGettingAll o.originNS err)] ∧
    creates (newEvents w.trace.length (RunE o cmd w).2.2.trace) = [] ∧
    (RunE o cmd w).2.2.store = (o.client.list o.originNS w.store).2 ∧
    ((o.client.list o.originNS w.store).2 = w.store → (RunE o cmd w).2.2.store = w.store) := by
  have hs := SourceSecrets_all o cmd w hcmd
  rw [hl] at hs
  simp only at hs
  have hr : RunE o cmd w = SourceSecrets o cmd w := by
    unfold RunE
    rw [hs]
  have hev : newEvents w.trace.length (RunE o cmd w).2.2.trace =
      optWrite o.verbose (Output.gettingAll o.originNS) ++ [Event.list o.originNS] ++
        optWrite o.verbose (Output.errorListing err) ++
        [Event.write (Output.errorGettingAll o.originNS err)] := by
    rw [hr, hs]
    exact newEvents_append _ _
  refine ⟨by rw [hs], hr, by rw [hr, hs], hev, ?_, by rw [hr, hs], fun h => by rw [hr, hs]; exact h⟩
  rw [hev]
  simp only [creates_append, creates_optWrite, List.append_nil, List.nil_append]
  rfl

/-- An `--all` request against a store whose lookup channel is down: the error is
returned and the store is left as it was. -/
theorem RunE_list_failure_aborts_witness :
    allCmd.GetBoolAll = (true, none) ∧
    ((request (memClient downFaults) "ns1" "ns2" [] true false).client.list
      (request (memClient downFaults) "ns1" "ns2" [] true false).originNS
      (World.mk abcStore []).store).1 = Except.error (Err.other "connection refused") ∧
    (RunE (request (memClient downFaults) "ns1" "ns2" [] true false) allCmd
      ⟨abcStore, []⟩).1 = some (Err.other "connection refused") ∧
    creates (newEvents 0 (RunE (request (memClient downFaults) "ns1" "ns2" [] true false) allCmd
      ⟨abcStore, []⟩).2.2.trace) = [] ∧
    (RunE (request (memClient downFaults) "ns1" "ns2" [] true false) allCmd
      ⟨abcStore, []⟩).2.2.store = abcStore :=
  have h := RunE_list_failure_aborts (request (memClient downFaults) "ns1" "ns2" [] true false)
    allCmd ⟨abcStore, []⟩ (Err.other "connection refused") rfl rfl
  ⟨rfl, rfl, h.2.2.1, h.2.2.2.2.1, h.2.2.2.2.2.2 rfl⟩

/-- C9: for an all-secrets request whose `List` call succeeds with zero secrets,
`SourceSecrets` returns no error and an empty sourced list, `RunE` returns no
error, and the invocation consists of that one `List` call (preceded, when
verbose, by the "getting all secrets" line): no `Create` call and no placement
diagnostic. -/
theorem RunE_empty_origin_succeeds {σ : Type} (o : CopySecretOptions σ) (cmd : Command)
    (w : World σ) (hcmd : cmd.GetBoolAll = (true, none))
    (hl : (o.client.list o.originNS w.store).1 = Except.ok []) :
    (SourceSecrets o cmd w).1 = none ∧
    (SourceSecrets o cmd w).2.1.oSecrets = [] ∧
    (RunE o cmd w).1 = none ∧
    newEvents w.trace.length (RunE o cmd w).2.2.trace =
      optWrite o.verbose (Output.gettingAll o.originNS) ++ [Event.list o.originNS] ∧
    creates (newEvents w.trace.length (RunE o cmd w).2.2.trace) = [] ∧
    (writes (newEvents w.trace.length (RunE o cmd w).2.2.trace)).filter isErrorPutting = [] ∧
    (RunE o cmd w).2.2.store = (o.client.list o.originNS w.store).2 := by
  have hs := SourceSecrets_all o cmd w hcmd
  rw [hl] at hs
  simp only at hs
  have hf : foundEvents o.verbose [] = [] := by cases o.verbose <;> rfl
  rw [hf, List.append_nil] at hs
  have hr : RunE o cmd w = (none, { o with allSecrets := true, oSecrets := [] },
      ⟨(o.client.list o.originNS w.store).2,
       w.trace ++ (optWrite o.verbose (Output.gettingAll o.originNS) ++
         [Event.list o.originNS])⟩) := by
    unfold RunE
    rw [hs]
    rfl
  have hev : newEvents w.trace.length (RunE o cmd w).2.2.trace =
      optWrite o.verbose (Output.gettingAll o.originNS) ++ [Event.list o.originNS] := by
    rw [hr]
    exact newEvents_append _ _
  refine ⟨by rw [hs], by rw [hs], by rw [hr], hev, ?_, ?_, by rw [hr]⟩
  · rw [hev]
    simp only [creates_append, creates_optWrite, List.nil_append]
    rfl
  · rw [hev]
    cases o.verbose <;> rfl

/-- The second scenario of the specification: `--all` against an origin namespace
with zero secrets. -/
theorem RunE_empty_origin_succeeds_witness :
    allCmd.GetBoolAll = (true, none) ∧
    ((request (memClient noFaults) "ns0" "ns2" [] true false).client.list
      (request (memClient noFaults) "ns0" "ns2" [] true false).originNS
      (World.mk abcStore []).store).1 = Except.ok [] ∧
    (RunE (request (memClient noFaults) "ns0" "ns2" [] true false) allCmd
      ⟨abcStore, []⟩).1 = none ∧
    newEvents 0 (RunE (request (memClient noFaults) "ns0" "ns2" [] true false) allCmd
      ⟨abcStore, []⟩).2.2.trace = [Event.list "ns0"] :=
  have h := RunE_empty_origin_succeeds (request (memClient noFaults) "ns0" "ns2" [] true false)
    allCmd ⟨abcStore, []⟩ rfl rfl
  ⟨rfl, rfl, h.2.2.1, h.2.2.2.1⟩

/-- C7, as stated, fails when the verbose flag is set: for the request
`--secret a,x,c --verbose` on the scenario store the skipped name x gets its own
"error getting secret" line, written before the aggregated diagnostic. -/
theorem SourceSecrets_verbose_per_name_counterexample :
    writes (newEvents 0
      (SourceSecrets (request (memClient noFaults) "ns1" "ns2" ["a", "x", "c"] false true)
        byNameCmd ⟨abcStore, []⟩).2.2.trace) =
      [Output.gettingSecrets ["a", "x", "c"],
       Output.errorGetting "x" "ns1" (Err.notFound "x"),
       Output.skipped ["x"],
       Output.secretFound "a", Output.secretFound "c"] ∧
    ¬ ((writes (newEvents 0
      (SourceSecrets (request (memClient noFaults) "ns1" "ns2" ["a", "x", "c"] false true)
        byNameCmd ⟨abcStore, []⟩).2.2.trace)).filter isErrorGetting = []) := by
  decide

/-- C7 (amended): for a by-name request on the reference store, the events of
`SourceSecrets` are, in order: the "getting secrets" line when verbose; for each
name its `Get` call, followed when verbose by an "error getting secret" line if
the call failed; then the aggregated diagnostic naming all failed names, written
once and only if some name failed; then the "secret found" lines when verbose.
So the aggregated diagnostic is written exactly once after all lookups when a
name was skipped and not at all otherwise, and a per-name diagnostic is written
for each skipped name exactly when verbose is set. -/
theorem SourceSecrets_skip_reporting (f : Faults) (o : CopySecretOptions Store)
    (cmd : Command) (w : World Store) (hc : o.client = memClient f)
    (hcmd : cmd.GetBoolAll = (false, none)) :
    newEvents w.trace.length (SourceSecrets o cmd w).2.2.trace =
      optWrite o.verbose (Output.gettingSecrets o.secrets) ++
      o.secrets.flatMap (fun n =>
        getEvents o.verbose o.originNS n (errOf (memGet f o.originNS n w.store).1)) ++
      optWrite (decide (failedNames f w.store o.originNS o.secrets ≠ []))
        (Output.skipped (failedNames f w.store o.originNS o.secrets)) ++
      foundEvents o.verbose (SourceSecrets o cmd w).2.1.oSecrets ∧
    (writes (newEvents w.trace.length (SourceSecrets o cmd w).2.2.trace)).filter isSkipped =
      (if failedNames f w.store o.originNS o.secrets = [] then []
       else [Output.skipped (failedNames f w.store o.originNS o.secrets)]) ∧
    ((writes (newEvents w.trace.length
        (SourceSecrets o cmd w).2.2.trace)).filter isErrorGetting).length =
      (if o.verbose then (failedNames f w.store o.originNS o.secrets).length else 0) := by
  have hev : newEvents w.trace.length (SourceSecrets o cmd w).2.2.trace =
      optWrite o.verbose (Output.gettingSecrets o.secrets) ++
      o.secrets.flatMap (fun n =>
        getEvents o.verbose o.originNS n (errOf (memGet f o.originNS n w.store).1)) ++
      optWrite (decide (failedNames f w.store o.originNS o.secrets ≠ []))
        (Output.skipped (failedNames f w.store o.originNS o.secrets)) ++
      foundEvents o.verbose (SourceSecrets o cmd w).2.1.oSecrets := by
    rw [SourceSecrets_byName_mem f o cmd w hc hcmd]
    exact newEvents_append _ _
  obtain ⟨hl1, hl2⟩ := writes_lookups f w.store o.verbose o.originNS o.secrets
  obtain ⟨hf1, hf2⟩ := writes_foundEvents o.verbose (SourceSecrets o cmd w).2.1.oSecrets
  refine ⟨hev, ?_, ?_⟩
  · rw [hev]
    simp only [writes_append, List.filter_append, hl1, hf1, List.append_nil]
    by_cases hfn : failedNames f w.store o.originNS o.secrets = [] <;>
      cases o.verbose <;> simp [hfn, optWrite, writes, writeOf, isSkipped]
  · rw [hev]
    simp only [writes_append, List.filter_append, List.length_append, hl2, hf2,
      List.length_nil, Nat.add_zero]
    by_cases hfn : failedNames f w.store o.originNS o.secrets = [] <;>
      cases o.verbose <;> simp [hfn, optWrite, writes, writeOf, isErrorGetting]

/-- The scenario request without the verbose flag: the only line written is the
aggregated diagnostic naming x, after the three lookups. -/
theorem SourceSecrets_skip_reporting_witness :
    (request (memClient noFaults) "ns1" "ns2" ["a", "x", "c"] false false).client
      = memClient noFaults ∧
    byNameCmd.GetBoolAll = (false, none) ∧
    newEvents 0
      (SourceSecrets (request (memClient noFaults) "ns1" "ns2" ["a", "x", "c"] false false)
        byNameCmd ⟨abcStore, []⟩).2.2.trace =
      [Event.get "ns1" "a", Event.get "ns1" "x", Event.get "ns1" "c",
       Event.write (Output.skipped ["x"])] ∧
    ((writes (newEvents 0
      (SourceSecrets (request (memClient noFaults) "ns1" "ns2" ["a", "x", "c"] false false)
        byNameCmd ⟨abcStore, []⟩).2.2.trace)).filter isErrorGetting).length = 0 :=
  have h := SourceSecrets_skip_reporting noFaults
    (request (memClient noFaults) "ns1" "ns2" ["a", "x", "c"] false false)
    byNameCmd ⟨abcStore, []⟩ rfl rfl
  ⟨rfl, rfl, h.1.trans (by decide), h.2.2⟩

/-- C8, as stated, fails: with a lookup channel that is down (`Get` returns a
transport error, not `NotFound`), a by-name `SourceSecrets` returns no error and
only reports the name in the aggregated skip diagnostic; `RunE` returns no error
either. -/
theorem SourceSecrets_channel_fault_counterexample :
    errOf (memGet downFaults "ns1" "a" abcStore).1 = some (Err.other "connection refused") ∧
    (SourceSecrets (request (memClient downFaults) "ns1" "ns2" ["a"] false false)
      byNameCmd ⟨abcStore, []⟩).1 = none ∧
    writes (SourceSecrets (request (memClient downFaults) "ns1" "ns2" ["a"] false false)
      byNameCmd ⟨abcStore, []⟩).2.2.trace = [Output.skipped ["a"]] ∧
    (RunE (request (memClient downFaults) "ns1" "ns2" ["a"] false false)
      byNameCmd ⟨abcStore, []⟩).1 = none := by
  decide

/-- C8 (amended): in by-name mode on the reference store, a name whose lookup
fails because the lookup channel itself fails (any error the channel raises) is
only recorded as skipped: `SourceSecrets` returns no error, the name is among the
failed names, and these are written in the aggregated skip diagnostic. -/
theorem SourceSecrets_channel_fault_is_skipped (f : Faults) (o : CopySecretOptions Store)
    (cmd : Command) (w : World Store) (n : String) (err : Err)
    (hc : o.client = memClient f) (hcmd : cmd.GetBoolAll = (false, none))
    (hn : n ∈ o.secrets) (hf : f.get o.originNS n = some err) :
    (memGet f o.originNS n w.store).1 = Except.error err ∧
    (SourceSecrets o cmd w).1 = none ∧
    n ∈ failedNames f w.store o.originNS o.secrets ∧
    Output.skipped (failedNames f w.store o.originNS o.secrets) ∈
      writes (newEvents w.trace.length (SourceSecrets o cmd w).2.2.trace) := by
  have hg : (memGet f o.originNS n w.store).1 = Except.error err := by
    simp [memGet, hf]
  have hmem : n ∈ failedNames f w.store o.originNS o.secrets := by
    simp [failedNames, List.mem_filter, hn, hg, errOf]
  have hne : failedNames f w.store o.originNS o.secrets ≠ [] :=
    List.ne_nil_of_mem hmem
  refine ⟨hg, by rw [SourceSecrets_byName_mem f o cmd w hc hcmd], hmem, ?_⟩
  rw [SourceSecrets_byName_mem f o cmd w hc hcmd]
  simp only [newEvents_append, writes_append, List.mem_append]
  refine Or.inl (Or.inr ?_)
  simp [hne, optWrite, writes, writeOf]

/-- The request `--secret a` against a store whose lookup channel is down. -/
theorem SourceSecrets_channel_fault_is_skipped_witness :
    (request (memClient downFaults) "ns1" "ns2" ["a"] false false).client
      = memClient downFaults ∧
    byNameCmd.GetBoolAll = (false, none) ∧
    "a" ∈ (request (memClient downFaults) "ns1" "ns2" ["a"] false false).secrets ∧
    downFaults.get "ns1" "a" = some (Err.other "connection refused") ∧
    (SourceSecrets (request (memClient downFaults) "ns1" "ns2" ["a"] false false)
      byNameCmd ⟨abcStore, []⟩).1 = none :=
  ⟨rfl, rfl, by decide, rfl,
   (SourceSecrets_channel_fault_is_skipped downFaults
      (request (memClient downFaults) "ns1" "ns2" ["a"] false false)
      byNameCmd ⟨abcStore, []⟩ "a" (Err.other "connection refused") rfl rfl
      (by decide) rfl).2.1⟩

/-- C10: on the reference store (with or without channel faults), one invocation
started from the empty sourced list leaves every namespace other than the
destination as it was, only appends to the destination (what was there is still
there, unchanged and in place), and leaves the whole store as it was when the
origin is the destination. -/
theorem RunE_only_adds_to_destination (f : Faults) (o : CopySecretOptions Store)
    (cmd : Command) (w : World Store) (hc : o.client = memClient f) (h0 : o.oSecrets = []) :
    (∀ ns, ns ≠ o.destinationNS → (RunE o cmd w).2.2.store ns = w.store ns) ∧
    (∃ added, (RunE o cmd w).2.2.store o.destinationNS = w.store o.destinationNS ++ added) ∧
    (o.originNS = o.destinationNS → (RunE o cmd w).2.2.store = w.store) := by
  obtain ⟨hd, -, -, hcl, -⟩ := SourceSecrets_frame o cmd w
  obtain ⟨hst, hsrc⟩ := SourceSecrets_mem_sourced f o cmd w hc h0
  unfold RunE
  rcases hs : SourceSecrets o cmd w with ⟨e, o1, w1⟩
  rw [hs] at hd hcl hst hsrc
  simp only at hd hcl hst hsrc
  cases e with
  | some err =>
    exact ⟨fun _ _ => by rw [hst], ⟨[], by simp [hst]⟩, fun _ => hst⟩
  | none =>
    have hc1 : o1.client = memClient f := by rw [hcl, hc]
    obtain ⟨h1, added, h2⟩ := foldl_runStep_mem_frame f o1 o1.oSecrets w1 hc1
    rw [hd, hst] at h1 h2
    refine ⟨h1, ⟨added, h2⟩, fun hod => ?_⟩
    have hno := foldl_runStep_mem_noop f o1 o1.oSecrets w1 hc1 (by
      intro s hs1
      have hin := hsrc s hs1
      rw [hd, hst, ← hod]
      unfold hasName
      rw [List.any_eq_true]
      exact ⟨s, hin, by simp⟩)
    simp only [Run, hno, hst]

/-- The scenario request `--secret a,x,c` from `ns1` to `ns2` against a store whose
`ns2` already holds b: `ns1` is as it was and `ns2` gained a and c after b. -/
theorem RunE_only_adds_to_destination_witness :
    (request (memClient noFaults) "ns1" "ns2" ["a", "x", "c"] false false).client
      = memClient noFaults ∧
    (request (memClient noFaults) "ns1" "ns2" ["a", "x", "c"] false false).oSecrets = [] ∧
    (RunE (request (memClient noFaults) "ns1" "ns2" ["a", "x", "c"] false false) byNameCmd
      ⟨takenStore, []⟩).2.2.store "ns1" = takenStore "ns1" ∧
    (RunE (request (memClient noFaults) "ns1" "ns2" ["a", "x", "c"] false false) byNameCmd
      ⟨takenStore, []⟩).2.2.store "ns2" =
      takenStore "ns2" ++ [placed "ns2" (sampleSecret "ns1" "a"),
        placed "ns2" (sampleSecret "ns1" "c")] :=
  ⟨rfl, rfl,
   (RunE_only_adds_to_destination noFaults
      (request (memClient noFaults) "ns1" "ns2" ["a", "x", "c"] false false) byNameCmd
      ⟨takenStore, []⟩ rfl rfl).1 "ns1" (by decide),
   by decide⟩

end CopySecret
